import Mathlib

/-!
Verification of the Lighthouse report post-processing utilities
(`app/utils/lighthouse.py`): the issue extractor (`LighthouseRunner.extract_issues`
with its helpers `_calculate_impact`, `_extract_suggestions`,
`_extract_code_snippet`) and the report chunker (`ReportChunker.chunk_report`).

The Python code operates on JSON-like documents (`Dict[str, Any]`).  We embed
JSON values as the inductive `Json`, and the audit-report shape the code reads
(via `.get` calls with defaults) as structures with `Option` fields, where a
`none` field models an absent key.  External library functions that the code
delegates to are taken as explicit function parameters:
  * `loads   : String → Option Report`  — `json.loads` plus the report shape
    (returns `none` exactly when the text does not decode);
  * `getText : String → String`         — `BeautifulSoup(...).get_text()`,
    the HTML-stripping step;
  * `pyStr   : Json → String`           — Python's `str()` builtin;
  * `dumpsLen : AuditEntry → Nat`       — `len(json.dumps(audit_data))`,
    the serialized-size estimate used by the chunker.
All theorems hold for every choice of these parameters.

Python's `list(set(...))` duplicate removal has unspecified output order; we
model it with `List.dedup` and state only order-insensitive facts about the
deduplicated list, matching the set semantics.
-/

namespace Lighthouse

/-- A JSON value, as produced by decoding a Lighthouse report. -/
inductive Json where
  | null : Json
  | bool (b : Bool) : Json
  | num (q : ℚ) : Json
  | str (s : String) : Json
  | arr (items : List Json) : Json
  | obj (fields : List (String × Json)) : Json

mutual

/-- Decidable equality on `Json` (the automatic derivation does not handle
the nested lists). -/
def Json.decEq : (a b : Json) → Decidable (a = b)
  | .null, .null => .isTrue rfl
  | .null, .bool _ => .isFalse nofun
  | .null, .num _ => .isFalse nofun
  | .null, .str _ => .isFalse nofun
  | .null, .arr _ => .isFalse nofun
  | .null, .obj _ => .isFalse nofun
  | .bool _, .null => .isFalse nofun
  | .bool a, .bool b =>
    match Bool.decEq a b with
    | .isTrue h => .isTrue (by rw [h])
    | .isFalse h => .isFalse (fun e => by cases e; exact h rfl)
  | .bool _, .num _ => .isFalse nofun
  | .bool _, .str _ => .isFalse nofun
  | .bool _, .arr _ => .isFalse nofun
  | .bool _, .obj _ => .isFalse nofun
  | .num _, .null => .isFalse nofun
  | .num _, .bool _ => .isFalse nofun
  | .num a, .num b =>
    match (inferInstance : Decidable (a = b)) with
    | .isTrue h => .isTrue (by rw [h])
    | .isFalse h => .isFalse (fun e => by cases e; exact h rfl)
  | .num _, .str _ => .isFalse nofun
  | .num _, .arr _ => .isFalse nofun
  | .num _, .obj _ => .isFalse nofun
  | .str _, .null => .isFalse nofun
  | .str _, .bool _ => .isFalse nofun
  | .str _, .num _ => .isFalse nofun
  | .str a, .str b =>
    match String.decEq a b with
    | .isTrue h => .isTrue (by rw [h])
    | .isFalse h => .isFalse (fun e => by cases e; exact h rfl)
  | .str _, .arr _ => .isFalse nofun
  | .str _, .obj _ => .isFalse nofun
  | .arr _, .null => .isFalse nofun
  | .arr _, .bool _ => .isFalse nofun
  | .arr _, .num _ => .isFalse nofun
  | .arr _, .str _ => .isFalse nofun
  | .arr xs, .arr ys =>
    match Json.decEqList xs ys with
    | .isTrue h => .isTrue (by rw [h])
    | .isFalse h => .isFalse (fun e => by cases e; exact h rfl)
  | .arr _, .obj _ => .isFalse nofun
  | .obj _, .null => .isFalse nofun
  | .obj _, .bool _ => .isFalse nofun
  | .obj _, .num _ => .isFalse nofun
  | .obj _, .str _ => .isFalse nofun
  | .obj _, .arr _ => .isFalse nofun
  | .obj xs, .obj ys =>
    match Json.decEqFields xs ys with
    | .isTrue h => .isTrue (by rw [h])
    | .isFalse h => .isFalse (fun e => by cases e; exact h rfl)

/-- Decidable equality on lists of `Json` values. -/
def Json.decEqList : (a b : List Json) → Decidable (a = b)
  | [], [] => .isTrue rfl
  | [], _ :: _ => .isFalse nofun
  | _ :: _, [] => .isFalse nofun
  | x :: xs, y :: ys =>
    match Json.decEq x y with
    | .isFalse h => .isFalse (fun e => by cases e; exact h rfl)
    | .isTrue h1 =>
      match Json.decEqList xs ys with
      | .isTrue h2 => .isTrue (by rw [h1, h2])
      | .isFalse h => .isFalse (fun e => by cases e; exact h rfl)

/-- Decidable equality on lists of key-value pairs of `Json` values. -/
def Json.decEqFields : (a b : List (String × Json)) → Decidable (a = b)
  | [], [] => .isTrue rfl
  | [], _ :: _ => .isFalse nofun
  | _ :: _, [] => .isFalse nofun
  | (k, v) :: xs, (l, w) :: ys =>
    match String.decEq k l with
    | .isFalse h => .isFalse (fun e => by cases e; exact h rfl)
    | .isTrue hk =>
      match Json.decEq v w with
      | .isFalse h => .isFalse (fun e => by cases e; exact h rfl)
      | .isTrue hv =>
        match Json.decEqFields xs ys with
        | .isTrue ht => .isTrue (by rw [hk, hv, ht])
        | .isFalse h => .isFalse (fun e => by cases e; exact h rfl)

end

instance : DecidableEq Json := Json.decEq

/-- Python `item[key]` / `key in item` on a decoded JSON object: first binding
of the key (JSON objects have unique keys). -/
def Json.getKey (item : Json) (k : String) : Option Json :=
  match item with
  | .obj fields => fields.lookup k
  | _ => none

/-- The `details` sub-mapping of an audit entry; the code only ever reads its
`items` key (`if "items" in details`), so only that field is modelled. -/
structure Details where
  items : Option (List Json)
deriving DecidableEq

/-- One audit entry, the value type of the report's `audits` mapping.  Fields
the code reads with `.get`; `none` models an absent key.  Per the data model,
`score` and `weight` are numeric, `title` and `description` are text. -/
structure AuditEntry where
  score : Option ℚ := none
  weight : Option ℚ := none
  title : Option String := none
  description : Option String := none
  details : Option Details := none
deriving DecidableEq

/-- An audit report: `metadata` is opaque and passed through; `audits` maps
audit identifiers to entries, in insertion order.  A report dict missing one
of the keys behaves as the empty default (`report.get("metadata", {})`,
`report.get("audits", {})`), so it is modelled by the empty value here. -/
structure Report where
  metadata : Json := .obj []
  audits : List (String × AuditEntry) := []
deriving DecidableEq

/-- The `AuditIssue` dataclass. -/
structure AuditIssue where
  title : String
  description : String
  score : ℚ
  impact : String
  suggestions : List Json
  code_snippet : Option String := none
  file_path : Option String := none
  line_number : Option Int := none
deriving DecidableEq

/-- The impact computation `LighthouseRunner._calculate_impact`:
score = audit_data.get("score", 0); weight = audit_data.get("weight", 0);
high if score < 0.5 and weight > 3, medium elif score < 0.8, else low. -/
def calculate_impact (a : AuditEntry) : String :=
  let score := a.score.getD 0
  let weight := a.weight.getD 0
  if score < 0.5 ∧ weight > 3 then "high"
  else if score < 0.8 then "medium"
  else "low"

/-- Inner loop of `_extract_suggestions`: for a mapping-typed item, the values
of each of the keys "suggestion", "recommendation", "message" that are
present, in that key order; non-mappings contribute nothing
(`isinstance(item, dict)`). -/
def itemSuggestionValues (item : Json) : List Json :=
  match item with
  | .obj _ => ["suggestion", "recommendation", "message"].filterMap item.getKey
  | _ => []

/-- The suggestion collection `LighthouseRunner._extract_suggestions`: the
description (if present),
then every suggestion/recommendation/message value of the mapping-typed
items of `details["items"]`; finally `list(set(suggestions))` removes
duplicates (modelled by `List.dedup`; Python's set order is unspecified). -/
def extract_suggestions (a : AuditEntry) : List Json :=
  let fromDescription : List Json :=
    match a.description with
    | some d => [.str d]
    | none => []
  let fromItems : List Json :=
    match (a.details.getD ⟨none⟩).items with
    | some items => (items.map itemSuggestionValues).flatten
    | none => []
  (fromDescription ++ fromItems).dedup

/-- Inner loop of `_extract_code_snippet` over one item: for a mapping-typed
item, the value of the first of the keys "snippet", "source", "code" present
in it; `none` if the item is not a mapping or has none of the keys. -/
def itemSnippetValue (item : Json) : Option Json :=
  match item with
  | .obj _ => (["snippet", "source", "code"].filterMap item.getKey).head?
  | _ => none

/-- The scan of `_extract_code_snippet` over `details["items"]`: the function
returns on the first item yielding a value, stripping HTML from text values
(`getText` = `BeautifulSoup(snippet, "html.parser").get_text()`) and
converting non-text values with `pyStr` = Python `str()`. -/
def snippetScan (getText : String → String) (pyStr : Json → String) :
    List Json → Option String
  | [] => none
  | item :: rest =>
    match itemSnippetValue item with
    | some (.str s) => some (getText s)
    | some v => some (pyStr v)
    | none => snippetScan getText pyStr rest

/-- The snippet extraction `LighthouseRunner._extract_code_snippet`. -/
def extract_code_snippet (getText : String → String) (pyStr : Json → String)
    (a : AuditEntry) : Option String :=
  match (a.details.getD ⟨none⟩).items with
  | some items => snippetScan getText pyStr items
  | none => none

/-- The `AuditIssue(...)` construction in the body of `extract_issues`. -/
def buildIssue (getText : String → String) (pyStr : Json → String)
    (a : AuditEntry) : AuditIssue :=
  { title := a.title.getD "Unknown Issue"
    description := a.description.getD ""
    score := a.score.getD 0
    impact := calculate_impact a
    suggestions := extract_suggestions a
    code_snippet := extract_code_snippet getText pyStr a }

/-- The extraction loop of `extract_issues` over a decoded report:
`if audit_data.get("score", 1) < 1: issues.append(AuditIssue(...))`. -/
def extract_issues_data (getText : String → String) (pyStr : Json → String)
    (r : Report) : List AuditIssue :=
  r.audits.filterMap fun p =>
    if p.2.score.getD 1 < 1 then some (buildIssue getText pyStr p.2) else none

/-- The extractor's input: `Union[str, Dict[str, Any]]`. -/
inductive ReportInput where
  | text (s : String) : ReportInput
  | data (r : Report) : ReportInput

/-- The error raised by `extract_issues` on undecodable text:
`ValueError("Invalid JSON report")`, the spec's `InvalidReportFormat`. -/
inductive ExtractError where
  | invalidReportFormat : ExtractError
deriving DecidableEq

/-- The extractor `LighthouseRunner.extract_issues`: decode string inputs with `loads`
(= `json.loads`), raising on failure; then run the extraction loop. -/
def extract_issues (loads : String → Option Report)
    (getText : String → String) (pyStr : Json → String) :
    ReportInput → Except ExtractError (List AuditIssue)
  | .text s =>
    match loads s with
    | none => .error .invalidReportFormat
    | some r => .ok (extract_issues_data getText pyStr r)
  | .data r => .ok (extract_issues_data getText pyStr r)

/-- One report chunk: the source report's `metadata` together with a
sub-mapping of its audits
(`{"metadata": report.get("metadata", {}), "audits": {}}`). -/
structure Chunk where
  metadata : Json
  audits : List (String × AuditEntry)
deriving DecidableEq

/-- Python dict assignment `d[k] = v`: an existing binding of `k` is updated
in place (keeping its position); otherwise the binding is appended. -/
def dictInsert (d : List (String × AuditEntry)) (k : String) (v : AuditEntry) :
    List (String × AuditEntry) :=
  if d.any (fun p => p.1 == k) then
    d.map (fun p => if p.1 == k then (k, v) else p)
  else
    d ++ [(k, v)]

/-- The loop of `ReportChunker.chunk_report`, one recursive step per audit
entry.  `cur`/`curSize` are `current_chunk["audits"]`/`current_size`; the
`metadata` field of every chunk is the source report's.  For each entry the
code computes `audit_size = len(json.dumps(audit_data))` (here `dumpsLen`),
closes the running chunk when `current_size + audit_size > max_chunk_size`
and the running chunk is non-empty, then inserts the entry and adds its size
to the running total.  After the loop the running chunk is appended when
non-empty. -/
def chunkAux (dumpsLen : AuditEntry → ℕ) (metadata : Json) (maxSize : ℕ)
    (cur : List (String × AuditEntry)) (curSize : ℕ) :
    List (String × AuditEntry) → List Chunk
  | [] => if cur = [] then [] else [⟨metadata, cur⟩]
  | (aid, ad) :: rest =>
    let asize := dumpsLen ad
    if curSize + asize > maxSize ∧ cur ≠ [] then
      ⟨metadata, cur⟩ ::
        chunkAux dumpsLen metadata maxSize (dictInsert [] aid ad) asize rest
    else
      chunkAux dumpsLen metadata maxSize (dictInsert cur aid ad)
        (curSize + asize) rest

/-- The chunker `ReportChunker.chunk_report` (default `max_chunk_size = 8000`). -/
def chunk_report (dumpsLen : AuditEntry → ℕ) (report : Report)
    (maxSize : ℕ := 8000) : List Chunk :=
  chunkAux dumpsLen report.metadata maxSize [] 0 report.audits

/-! Spec-side definitions, written from the specification's wording (not from
the code), used to state the claims as refinements. -/

/-- Spec-side: an audit entry is failing when its `score` field is present
and strictly less than 1.0; an entry with no score field is passing. -/
def specFailing (a : AuditEntry) : Bool :=
  match a.score with
  | some s => decide (s < 1)
  | none => false

/-- Spec-side: the `details.items` sequence of an entry, if both levels are
present. -/
def specItems (a : AuditEntry) : Option (List Json) :=
  match a.details with
  | some dt => dt.items
  | none => none

/-- Spec-side: the values a suggestion may come from, as a predicate: the
entry's `description` (when present), and every value found under the keys
`suggestion`, `recommendation`, `message` in the mapping-typed items of
`details.items`. -/
def specSuggestionSource (a : AuditEntry) (v : Json) : Prop :=
  (∃ d, a.description = some d ∧ v = .str d) ∨
  (∃ items, specItems a = some items ∧ ∃ item ∈ items,
    (∃ fields, item = Json.obj fields) ∧
    ∃ k ∈ (["suggestion", "recommendation", "message"] : List String),
      item.getKey k = some v)

/-- Spec-side: whether an item is mapping-typed and contains any of the keys
`snippet`, `source`, `code`. -/
def specHasSnippetKey (item : Json) : Bool :=
  match item with
  | .obj _ => (["snippet", "source", "code"] : List String).any
      fun k => (item.getKey k).isSome
  | _ => false

/-- Spec-side: the first mapping-typed item of `details.items` that contains
any of the keys `snippet`, `source`, `code`. -/
def specSnippetItem (a : AuditEntry) : Option Json :=
  ((specItems a).getD []).find? specHasSnippetKey

/-- Spec-side: the value the snippet is derived from: from the first
matching item, the value of the first of the keys `snippet`, `source`,
`code` present in it. -/
def specSnippetValue (a : AuditEntry) : Option Json :=
  (specSnippetItem a).bind fun item =>
    (["snippet", "source", "code"].filterMap item.getKey).head?

/-- Spec-side: turning a snippet value into text: text values are
HTML-stripped, non-text values go through the textual conversion. -/
def specSnippetText (getText : String → String) (pyStr : Json → String)
    (v : Json) : String :=
  match v with
  | .str s => getText s
  | v => pyStr v

/-! Concrete sample values, used to instantiate the theorems below on
closed inputs. -/

/-- A sample audit entry with every optional field absent. -/
def sampleEntry : AuditEntry := {}

/-- A sample report with three audit entries `a`, `b`, `c`. -/
def sampleReport : Report :=
  { metadata := .null
    audits := [("a", sampleEntry), ("b", sampleEntry), ("c", sampleEntry)] }

/-! Helper lemmas. -/

/-- Inserting into the empty dict appends the binding. -/
theorem dictInsert_nil (k : String) (v : AuditEntry) :
    dictInsert [] k v = [(k, v)] := rfl

/-- Inserting a key not already bound appends the binding. -/
theorem dictInsert_of_fresh (d : List (String × AuditEntry)) (k : String)
    (v : AuditEntry) (h : k ∉ d.map Prod.fst) :
    dictInsert d k v = d ++ [(k, v)] := by
  have hany : ¬ (d.any fun p => p.1 == k) = true := by
    simp only [List.any_eq_true, beq_iff_eq]
    rintro ⟨p, hp, he⟩
    exact h (List.mem_map.mpr ⟨p, hp, he⟩)
  unfold dictInsert
  rw [if_neg hany]

/-- Unfolding lemma for `chunkAux` on the empty audit list. -/
theorem chunkAux_nil (dl : AuditEntry → ℕ) (m : Json) (maxS : ℕ)
    (cur : List (String × AuditEntry)) (curSize : ℕ) :
    chunkAux dl m maxS cur curSize [] = if cur = [] then [] else [⟨m, cur⟩] :=
  rfl

/-- Unfolding lemma for `chunkAux` on one audit entry. -/
theorem chunkAux_cons (dl : AuditEntry → ℕ) (m : Json) (maxS : ℕ)
    (cur : List (String × AuditEntry)) (curSize : ℕ) (aid : String)
    (ad : AuditEntry) (rest : List (String × AuditEntry)) :
    chunkAux dl m maxS cur curSize ((aid, ad) :: rest) =
      if curSize + dl ad > maxS ∧ cur ≠ [] then
        ⟨m, cur⟩ :: chunkAux dl m maxS [(aid, ad)] (dl ad) rest
      else
        chunkAux dl m maxS (dictInsert cur aid ad) (curSize + dl ad) rest :=
  rfl

/-- Concatenating the audits of the chunks produced by the loop yields the
running chunk followed by the remaining entries, whenever the keys in play
are distinct. -/
theorem chunkAux_flatMap (dl : AuditEntry → ℕ) (m : Json) (maxS : ℕ) :
    ∀ (rest cur : List (String × AuditEntry)) (curSize : ℕ),
      ((cur ++ rest).map Prod.fst).Nodup →
      (chunkAux dl m maxS cur curSize rest).flatMap Chunk.audits
        = cur ++ rest := by
  intro rest
  induction rest with
  | nil =>
    intro cur curSize _
    by_cases hc : cur = [] <;> simp [chunkAux_nil, hc]
  | cons p rest ih =>
    obtain ⟨aid, ad⟩ := p
    intro cur curSize h
    have h' := h
    rw [List.map_append, List.nodup_append] at h'
    have hfresh : aid ∉ cur.map Prod.fst := fun hmem => h'.2.2 hmem (by simp)
    have htail : (((aid, ad) :: rest).map Prod.fst).Nodup := h'.2.1
    by_cases hs : curSize + dl ad > maxS ∧ cur ≠ []
    · rw [chunkAux_cons, if_pos hs, List.flatMap_cons]
      rw [ih [(aid, ad)] (dl ad) (by simpa using htail)]
      simp
    · rw [chunkAux_cons, if_neg hs, dictInsert_of_fresh _ _ _ hfresh]
      rw [ih (cur ++ [(aid, ad)]) (curSize + dl ad) (by simpa using h)]
      simp

/-- Every chunk produced by the loop has a non-empty audits mapping. -/
theorem chunkAux_mem_ne_nil (dl : AuditEntry → ℕ) (m : Json) (maxS : ℕ) :
    ∀ (rest cur : List (String × AuditEntry)) (curSize : ℕ) (c : Chunk),
      c ∈ chunkAux dl m maxS cur curSize rest → c.audits ≠ [] := by
  intro rest
  induction rest with
  | nil =>
    intro cur curSize c hc
    rw [chunkAux_nil] at hc
    by_cases h : cur = []
    · simp [h] at hc
    · simp [h] at hc
      rw [hc]
      exact h
  | cons p rest ih =>
    obtain ⟨aid, ad⟩ := p
    intro cur curSize c hc
    rw [chunkAux_cons] at hc
    by_cases hs : curSize + dl ad > maxS ∧ cur ≠ []
    · rw [if_pos hs] at hc
      rcases List.mem_cons.mp hc with h1 | h2
      · rw [h1]
        exact hs.2
      · exact ih _ _ _ h2
    · rw [if_neg hs] at hc
      exact ih _ _ _ hc

/-- Once the running total exceeds the budget and the running chunk is
non-empty, that running chunk is emitted as-is. -/
theorem chunkAux_flush_cur (dl : AuditEntry → ℕ) (m : Json) (maxS : ℕ) :
    ∀ (rest cur : List (String × AuditEntry)) (curSize : ℕ),
      maxS < curSize → cur ≠ [] →
      ∃ c ∈ chunkAux dl m maxS cur curSize rest, c.audits = cur := by
  intro rest
  cases rest with
  | nil =>
    intro cur curSize hbig hne
    refine ⟨⟨m, cur⟩, ?_, rfl⟩
    rw [chunkAux_nil, if_neg hne]
    exact List.mem_singleton.mpr rfl
  | cons p rest =>
    obtain ⟨aid, ad⟩ := p
    intro cur curSize hbig hne
    refine ⟨⟨m, cur⟩, ?_, rfl⟩
    rw [chunkAux_cons, if_pos ⟨by omega, hne⟩]
    exact List.mem_cons_self _ _

/-- An entry whose serialized size exceeds the budget ends up alone in a
chunk. -/
theorem chunkAux_oversized_alone (dl : AuditEntry → ℕ) (m : Json) (maxS : ℕ) :
    ∀ (rest cur : List (String × AuditEntry)) (curSize : ℕ)
      (aid : String) (ad : AuditEntry),
      (aid, ad) ∈ rest → maxS < dl ad →
      ∃ c ∈ chunkAux dl m maxS cur curSize rest, c.audits = [(aid, ad)] := by
  intro rest
  induction rest with
  | nil =>
    intro cur curSize aid ad hmem
    cases hmem
  | cons p rest ih =>
    obtain ⟨bid, bd⟩ := p
    intro cur curSize aid ad hmem hbig
    rcases List.mem_cons.mp hmem with heq | htail
    · obtain ⟨h1, h2⟩ := Prod.mk.inj heq
      subst h1
      subst h2
      by_cases hs : curSize + dl ad > maxS ∧ cur ≠ []
      · rw [chunkAux_cons, if_pos hs]
        obtain ⟨c, hc, he⟩ :=
          chunkAux_flush_cur dl m maxS rest [(aid, ad)] (dl ad) hbig (by simp)
        exact ⟨c, List.mem_cons_of_mem _ hc, he⟩
      · have hcur : cur = [] := by
          by_contra hne
          exact hs ⟨by omega, hne⟩
        rw [chunkAux_cons, if_neg hs, hcur, dictInsert_nil]
        exact chunkAux_flush_cur dl m maxS rest [(aid, ad)] (curSize + dl ad)
          (by omega) (by simp)
    · by_cases hs : curSize + dl bd > maxS ∧ cur ≠ []
      · rw [chunkAux_cons, if_pos hs]
        obtain ⟨c, hc, he⟩ := ih [(bid, bd)] (dl bd) aid ad htail hbig
        exact ⟨c, List.mem_cons_of_mem _ hc, he⟩
      · rw [chunkAux_cons, if_neg hs]
        exact ih _ _ aid ad htail hbig

/-! The claims. -/

/-- C1.  For every audit report with distinct audit identifiers and every
positive maximum chunk size, concatenating the `audits` mappings of the
chunks returned by `chunk_report`, in chunk order, yields exactly the source
report's `audits` mapping: same identifiers, same entries, each exactly
once, in the original order (stated as equality of key-value lists). -/
theorem chunk_report_concat_eq (dl : AuditEntry → ℕ) (r : Report) (maxS : ℕ)
    (hpos : 0 < maxS) (hkeys : (r.audits.map Prod.fst).Nodup) :
    (chunk_report dl r maxS).flatMap Chunk.audits = r.audits := by
  have h := chunkAux_flatMap dl r.metadata maxS r.audits [] 0
    (by simpa using hkeys)
  simpa [chunk_report] using h

/-- Witness for C1 at a concrete report and size function. -/
theorem chunk_report_concat_eq_witness :
    0 < 8000 ∧ (sampleReport.audits.map Prod.fst).Nodup ∧
    (chunk_report (fun _ => 3000) sampleReport 8000).flatMap Chunk.audits
      = sampleReport.audits :=
  ⟨by decide, by decide,
    chunk_report_concat_eq (fun _ => 3000) sampleReport 8000 (by decide)
      (by decide)⟩

/-- C8.  For every audit report and positive maximum chunk size, no returned
chunk has an empty `audits` mapping, and a report with empty `audits` yields
the empty list of chunks. -/
theorem chunk_report_no_empty_chunk (dl : AuditEntry → ℕ) (r : Report)
    (maxS : ℕ) (hpos : 0 < maxS) :
    (∀ c ∈ chunk_report dl r maxS, c.audits ≠ []) ∧
    (r.audits = [] → chunk_report dl r maxS = []) := by
  constructor
  · intro c hc
    exact chunkAux_mem_ne_nil dl r.metadata maxS r.audits [] 0 c hc
  · intro h
    simp [chunk_report, h, chunkAux_nil]

/-- Witness for C8 at a concrete report and size function. -/
theorem chunk_report_no_empty_chunk_witness :
    0 < 8000 ∧
    ((∀ c ∈ chunk_report (fun _ => 3000) sampleReport 8000, c.audits ≠ []) ∧
      (sampleReport.audits = [] →
        chunk_report (fun _ => 3000) sampleReport 8000 = [])) :=
  ⟨by decide,
    chunk_report_no_empty_chunk (fun _ => 3000) sampleReport 8000 (by decide)⟩

/-- C9.  For every audit report with distinct identifiers and positive
maximum chunk size, an entry whose own serialized size exceeds the budget is
placed alone in a chunk, and no entry is split or dropped (the chunks'
audits concatenate back to the source's). -/
theorem chunk_report_oversized_alone (dl : AuditEntry → ℕ) (r : Report)
    (maxS : ℕ) (aid : String) (ad : AuditEntry) (hpos : 0 < maxS)
    (hkeys : (r.audits.map Prod.fst).Nodup) (hmem : (aid, ad) ∈ r.audits)
    (hbig : maxS < dl ad) :
    (∃ c ∈ chunk_report dl r maxS, c.audits = [(aid, ad)]) ∧
    (chunk_report dl r maxS).flatMap Chunk.audits = r.audits := by
  constructor
  · exact chunkAux_oversized_alone dl r.metadata maxS r.audits [] 0 aid ad
      hmem hbig
  · have h := chunkAux_flatMap dl r.metadata maxS r.audits [] 0
      (by simpa using hkeys)
    simpa [chunk_report] using h

/-- Witness for C9: a single entry of serialized size 9000 against budget
8000 is returned alone in one chunk. -/
theorem chunk_report_oversized_alone_witness :
    0 < 8000 ∧
    (((⟨Json.null, [("a", sampleEntry)]⟩ : Report).audits.map Prod.fst).Nodup) ∧
    ("a", sampleEntry) ∈ (⟨Json.null, [("a", sampleEntry)]⟩ : Report).audits ∧
    8000 < (fun _ : AuditEntry => 9000) sampleEntry ∧
    ((∃ c ∈ chunk_report (fun _ => 9000) ⟨Json.null, [("a", sampleEntry)]⟩ 8000,
        c.audits = [("a", sampleEntry)]) ∧
      (chunk_report (fun _ => 9000) ⟨Json.null, [("a", sampleEntry)]⟩ 8000).flatMap
          Chunk.audits
        = (⟨Json.null, [("a", sampleEntry)]⟩ : Report).audits) :=
  ⟨by decide, by decide, by decide, by decide,
    chunk_report_oversized_alone (fun _ => 9000) ⟨Json.null, [("a", sampleEntry)]⟩
      8000 "a" sampleEntry (by decide) (by decide) (by decide) (by decide)⟩

/-- C4 counterexample.  On a report with exactly three entries of serialized
size 3000 each and maximum chunk size 8000, the chunker returns two chunks,
not one: the boundary check fires on the third entry (6000 + 3000 > 8000
with a non-empty running chunk). -/
theorem chunk_three_3000_counterexample :
    (chunk_report (fun _ => 3000) sampleReport 8000).length = 2 ∧
    ¬ (chunk_report (fun _ => 3000) sampleReport 8000).length = 1 := by
  decide

/-- C4 amended.  For a report whose `audits` mapping contains exactly three
entries `a`, `b`, `c` (distinct identifiers) with serialized sizes 3000,
3000, 3000, and maximum chunk size 8000, the chunker returns exactly two
chunks: the first containing `a` and `b`, the second containing `c`. -/
theorem chunk_three_3000_two_chunks (dl : AuditEntry → ℕ) (m : Json)
    (ka kb kc : String) (ea eb ec : AuditEntry) (hk : ka ≠ kb)
    (ha : dl ea = 3000) (hb : dl eb = 3000) (hc : dl ec = 3000) :
    chunk_report dl ⟨m, [(ka, ea), (kb, eb), (kc, ec)]⟩ 8000 =
      [⟨m, [(ka, ea), (kb, eb)]⟩, ⟨m, [(kc, ec)]⟩] := by
  have hfresh : kb ∉ ([(ka, ea)].map Prod.fst) := by
    simp [Ne.symm hk]
  rw [chunk_report]
  rw [chunkAux_cons, if_neg (by simp [ha])]
  rw [dictInsert_nil, ha]
  rw [chunkAux_cons, if_neg (by simp [hb])]
  rw [dictInsert_of_fresh _ _ _ hfresh, hb]
  rw [chunkAux_cons, if_pos ⟨by simp [hc], by simp⟩]
  rw [chunkAux_nil, if_neg (by simp)]
  simp

/-! Extractor helper lemmas. -/

/-- The spec-side failing test agrees with the code's
`audit_data.get("score", 1) < 1`. -/
theorem specFailing_iff (a : AuditEntry) :
    specFailing a = true ↔ a.score.getD 1 < 1 := by
  unfold specFailing
  cases h : a.score with
  | none => simp
  | some s => simp

/-- The extraction loop equals a filter of the failing entries followed by a
map of the issue construction: one issue per failing entry, in source
order. -/
theorem extract_issues_data_eq_map_filter (getText : String → String)
    (pyStr : Json → String) (r : Report) :
    extract_issues_data getText pyStr r =
      (r.audits.filter fun p => specFailing p.2).map
        fun p => buildIssue getText pyStr p.2 := by
  unfold extract_issues_data
  induction r.audits with
  | nil => rfl
  | cons p l ih =>
    by_cases hp : p.2.score.getD 1 < 1
    · have hf : specFailing p.2 = true := (specFailing_iff p.2).mpr hp
      simp [List.filterMap_cons, List.filter_cons, hp, hf, ih]
    · have hf : specFailing p.2 = false := by
        rw [Bool.eq_false_iff]
        intro ht
        exact hp ((specFailing_iff p.2).mp ht)
      simp [List.filterMap_cons, List.filter_cons, hp, hf, ih]

/-- The two levels of `.get` through which the code reaches `details["items"]`
agree with the spec-side `specItems`. -/
theorem detailsItems_eq (a : AuditEntry) :
    (a.details.getD ⟨none⟩).items = specItems a := by
  unfold specItems
  cases a.details <;> rfl

/-- Witness for the amended C4 at a concrete report and size function. -/
theorem chunk_three_3000_two_chunks_witness :
    ("a" : String) ≠ "b" ∧
    chunk_report (fun _ => 3000) sampleReport 8000 =
      [⟨Json.null, [("a", sampleEntry), ("b", sampleEntry)]⟩,
        ⟨Json.null, [("c", sampleEntry)]⟩] :=
  ⟨by decide,
    chunk_three_3000_two_chunks (fun _ => 3000) Json.null "a" "b" "c"
      sampleEntry sampleEntry sampleEntry (by decide) rfl rfl rfl⟩

/-- C2.  On a structured report the extractor succeeds, and it returns
exactly one issue record per audit entry whose `score` field is present and
strictly less than 1.0; entries without a `score` field and entries scoring
exactly 1.0 contribute none. -/
theorem extract_issues_count (loads : String → Option Report)
    (getText : String → String) (pyStr : Json → String) (r : Report) :
    extract_issues loads getText pyStr (.data r) =
      .ok (extract_issues_data getText pyStr r) ∧
    (extract_issues_data getText pyStr r).length =
      (r.audits.filter fun p => specFailing p.2).length := by
  refine ⟨rfl, ?_⟩
  rw [extract_issues_data_eq_map_filter, List.length_map]

/-- C10.  The issue records appear in the same relative order as their
source audit entries: the extraction is the in-order filter of the failing
entries followed by the per-entry issue construction. -/
theorem extract_issues_order (getText : String → String)
    (pyStr : Json → String) (r : Report) :
    extract_issues_data getText pyStr r =
      (r.audits.filter fun p => specFailing p.2).map
        fun p => buildIssue getText pyStr p.2 :=
  extract_issues_data_eq_map_filter getText pyStr r

/-- C5.  A text input that does not decode into structured data makes the
extractor fail with the invalid-report error, producing no issue records. -/
theorem extract_issues_invalid_text (loads : String → Option Report)
    (getText : String → String) (pyStr : Json → String) (s : String)
    (h : loads s = none) :
    extract_issues loads getText pyStr (.text s)
      = .error .invalidReportFormat := by
  have hu : extract_issues loads getText pyStr (.text s) =
      match loads s with
      | none => .error .invalidReportFormat
      | some r => .ok (extract_issues_data getText pyStr r) := rfl
  rw [hu, h]

/-- Witness for C5 at a concrete decoder and input string. -/
theorem extract_issues_invalid_text_witness :
    (fun _ : String => (none : Option Report)) "not json" = none ∧
    extract_issues (fun _ => none) (fun s => s) (fun _ => "") (.text "not json")
      = .error .invalidReportFormat :=
  ⟨rfl, extract_issues_invalid_text (fun _ => none) (fun s => s) (fun _ => "")
    "not json" rfl⟩

/-- C3.  For entries with a score present, the impact is `high` exactly when
score < 0.5 and weight > 3, `medium` exactly when the high condition failed
and score < 0.8, and `low` otherwise (weight defaulting to 0 when absent);
in particular score 0.3 / weight 5 is high, 0.6 / 1 is medium, and
0.9 / 10 is low. -/
theorem impact_classification :
    (∀ (s : ℚ) (w : Option ℚ) (t d : Option String) (dt : Option Details),
      (calculate_impact ⟨some s, w, t, d, dt⟩ = "high" ↔
        s < 0.5 ∧ 3 < w.getD 0) ∧
      (calculate_impact ⟨some s, w, t, d, dt⟩ = "medium" ↔
        ¬(s < 0.5 ∧ 3 < w.getD 0) ∧ s < 0.8) ∧
      (calculate_impact ⟨some s, w, t, d, dt⟩ = "low" ↔
        ¬(s < 0.5 ∧ 3 < w.getD 0) ∧ ¬ s < 0.8)) ∧
    calculate_impact { score := some 0.3, weight := some 5 } = "high" ∧
    calculate_impact { score := some 0.6, weight := some 1 } = "medium" ∧
    calculate_impact { score := some 0.9, weight := some 10 } = "low" := by
  refine ⟨?_, ?_, ?_, ?_⟩
  · intro s w t d dt
    have hc : calculate_impact ⟨some s, w, t, d, dt⟩ =
        if s < 0.5 ∧ (3 : ℚ) < w.getD 0 then "high"
        else if s < 0.8 then "medium" else "low" := rfl
    rw [hc]
    by_cases h1 : s < 0.5 ∧ (3 : ℚ) < w.getD 0
    · rw [if_pos h1]
      exact ⟨⟨fun _ => h1, fun _ => rfl⟩,
        ⟨fun h => absurd h (by decide), fun h => absurd h1 h.1⟩,
        ⟨fun h => absurd h (by decide), fun h => absurd h1 h.1⟩⟩
    · rw [if_neg h1]
      by_cases h2 : s < 0.8
      · rw [if_pos h2]
        exact ⟨⟨fun h => absurd h (by decide), fun h => absurd h h1⟩,
          ⟨fun _ => ⟨h1, h2⟩, fun _ => rfl⟩,
          ⟨fun h => absurd h (by decide), fun h => absurd h2 h.2⟩⟩
      · rw [if_neg h2]
        exact ⟨⟨fun h => absurd h (by decide), fun h => absurd h h1⟩,
          ⟨fun h => absurd h (by decide), fun h => absurd h.2 h2⟩,
          ⟨fun _ => ⟨h1, h2⟩, fun _ => rfl⟩⟩
  · norm_num [calculate_impact]
  · norm_num [calculate_impact]
  · norm_num [calculate_impact]

/-- Membership in the per-item suggestion values: the item is mapping-typed
and the value sits under one of the three scanned keys. -/
theorem mem_itemSuggestionValues (item : Json) (v : Json) :
    v ∈ itemSuggestionValues item ↔
      (∃ fields, item = Json.obj fields) ∧
      ∃ k ∈ (["suggestion", "recommendation", "message"] : List String),
        item.getKey k = some v := by
  cases item <;> simp [itemSuggestionValues]

/-- C6.  The suggestion collection of an entry has no duplicates, and its
members are exactly the entry's description (when present) together with
every value found under the keys `suggestion`, `recommendation`, `message`
in the mapping-typed items of `details.items`; an entry with no `details`
field gets exactly the description text (when present) and nothing else. -/
theorem suggestions_characterization (a : AuditEntry) :
    (extract_suggestions a).Nodup ∧
    (∀ v, v ∈ extract_suggestions a ↔ specSuggestionSource a v) ∧
    extract_suggestions { a with details := none } =
      (match a.description with
        | some d => [Json.str d]
        | none => []) := by
  refine ⟨List.nodup_dedup _, ?_, ?_⟩
  · intro v
    unfold extract_suggestions specSuggestionSource
    rw [List.mem_dedup, List.mem_append, detailsItems_eq]
    apply or_congr
    · cases a.description <;> simp
    · cases specItems a <;>
        simp [List.mem_flatten, List.mem_map, mem_itemSuggestionValues]
  · cases hdesc : a.description with
    | some d => simp [extract_suggestions, hdesc]
    | none => simp [extract_suggestions, hdesc]

/-- The presence of a snippet value for one item agrees with the spec-side
key test. -/
theorem itemSnippetValue_isSome (item : Json) :
    (itemSnippetValue item).isSome = specHasSnippetKey item := by
  cases item with
  | obj fields =>
    simp only [itemSnippetValue, specHasSnippetKey]
    cases h1 : (Json.obj fields).getKey "snippet" <;>
      cases h2 : (Json.obj fields).getKey "source" <;>
        cases h3 : (Json.obj fields).getKey "code" <;>
          simp [List.filterMap_cons, h1, h2, h3]
  | null => rfl
  | bool b => rfl
  | num q => rfl
  | str s => rfl
  | arr xs => rfl

/-- Unfolding lemma for the snippet scan on one item. -/
theorem snippetScan_cons (getText : String → String) (pyStr : Json → String)
    (item : Json) (rest : List Json) :
    snippetScan getText pyStr (item :: rest) =
      match itemSnippetValue item with
      | some (.str s) => some (getText s)
      | some v => some (pyStr v)
      | none => snippetScan getText pyStr rest := rfl

/-- The snippet scan returns the processed value of the first key among
`snippet`, `source`, `code` present in the first mapping-typed item that
has any of them. -/
theorem snippetScan_eq (getText : String → String) (pyStr : Json → String) :
    ∀ items : List Json,
      snippetScan getText pyStr items =
        ((items.find? specHasSnippetKey).bind fun item =>
          (["snippet", "source", "code"].filterMap item.getKey).head?).map
          (specSnippetText getText pyStr) := by
  intro items
  induction items with
  | nil => rfl
  | cons item rest ih =>
    cases hv : itemSnippetValue item with
    | none =>
      have hpred : ¬ specHasSnippetKey item = true := by
        rw [← itemSnippetValue_isSome, hv]
        exact Bool.false_ne_true
      rw [snippetScan_cons, hv, List.find?_cons_of_neg _ hpred, ih]
    | some v =>
      have hpred : specHasSnippetKey item = true := by
        rw [← itemSnippetValue_isSome, hv]
        rfl
      have hhead :
          (["snippet", "source", "code"].filterMap item.getKey).head?
            = some v := by
        cases item with
        | obj fields => exact hv
        | null => exact Option.noConfusion hv
        | bool b => exact Option.noConfusion hv
        | num q => exact Option.noConfusion hv
        | str s => exact Option.noConfusion hv
        | arr xs => exact Option.noConfusion hv
      rw [snippetScan_cons, hv, List.find?_cons_of_pos _ hpred]
      rw [Option.some_bind, hhead]
      cases v <;> rfl

/-- C7.  The code snippet of an entry is derived from the first mapping-typed
item of `details.items` containing any of the keys `snippet`, `source`,
`code`, taking the value of the first such key in it: text values are
HTML-stripped, non-text values are converted to text, and when no item
matches (or there are no items) the snippet is none. -/
theorem snippet_characterization (getText : String → String)
    (pyStr : Json → String) (a : AuditEntry) :
    extract_code_snippet getText pyStr a =
      (specSnippetValue a).map (specSnippetText getText pyStr) := by
  have h1 : extract_code_snippet getText pyStr a =
      match specItems a with
      | some items => snippetScan getText pyStr items
      | none => none := by
    unfold extract_code_snippet specItems
    cases a.details <;> rfl
  rw [h1]
  cases hit : specItems a with
  | none =>
    have h2 : specSnippetValue a = none := by
      unfold specSnippetValue specSnippetItem
      rw [hit]
      rfl
    rw [h2]
    rfl
  | some items =>
    have h2 : specSnippetValue a =
        ((items.find? specHasSnippetKey).bind fun item =>
          (["snippet", "source", "code"].filterMap item.getKey).head?) := by
      unfold specSnippetValue specSnippetItem
      rw [hit]
      rfl
    rw [h2]
    exact snippetScan_eq getText pyStr items

end Lighthouse
